import Mathlib

/-!
Shallow embedding of the task aggregation core of the
`stream-deck-plugin-notion-tasks` repository
(`src/notion/task-helpers.ts` and `src/actions/notion-today.ts`),
together with theorems settling the specification claims about it.

JavaScript strings are modelled by Lean `String`; `undefined`/`null`
values of optional fields are modelled by `Option`.  JavaScript falsiness
of a string value (`!s` is true for `undefined` and for `""`) is modelled
explicitly wherever the source relies on it.
-/

namespace NotionTasks

/-! ### String helpers (JS `toLowerCase`, `trim`, regex replaces) -/

/-- `[a-z0-9]` test used by the normalization regex in
`normalizePriorityKey` (`task-helpers.ts:68`). -/
def isKeyChar (c : Char) : Bool :=
  ('a' ≤ c && c ≤ 'z') || ('0' ≤ c && c ≤ '9')

/-- Collapse each maximal run of repeated occurrences of `x` to a single
occurrence (used to model the `+` in the regexes `/[^a-z0-9]+/g` and
`/\s+/g` after each offending character has been replaced pointwise). -/
def squashRun (x : Char) : List Char → List Char
  | [] => []
  | [c] => [c]
  | c :: d :: rest =>
    if c = x && d = x then squashRun x (d :: rest)
    else c :: squashRun x (d :: rest)

/-- Strip leading and trailing occurrences of `x`
(models `/^-+|-+$/g → ""`). -/
def stripEnds (x : Char) (cs : List Char) : List Char :=
  ((cs.dropWhile (· = x)).reverse.dropWhile (· = x)).reverse

/-- JS `toLowerCase`, modelled characterwise (ASCII lowering, which is
what every label this code compares contains). -/
def jsToLower (s : String) : String :=
  String.mk (s.data.map Char.toLower)

/-- JS `trim`: strip leading and trailing whitespace. -/
def jsTrim (s : String) : String :=
  String.mk (((s.data.dropWhile Char.isWhitespace).reverse.dropWhile
    Char.isWhitespace).reverse)

/-- Helper of `splitComma`, accumulating the current piece reversed. -/
def splitCommaAux : List Char → List Char → List String
  | [], acc => [String.mk acc.reverse]
  | c :: rest, acc =>
    if c = ',' then String.mk acc.reverse :: splitCommaAux rest []
    else splitCommaAux rest (c :: acc)

/-- JS `split(',')`: e.g. `""` yields `[""]` and `"a,,b"` yields
`["a", "", "b"]`. -/
def splitComma (s : String) : List String :=
  splitCommaAux s.data []

/-- JS `Array.prototype.join(sep)`. -/
def joinSep (sep : String) : List String → String
  | [] => ""
  | [s] => s
  | s :: rest => s ++ sep ++ joinSep sep rest

/-- `task-helpers.ts:67-69`:
`value.toLowerCase().replace(/[^a-z0-9]+/g, "-").replace(/^-+|-+$/g, "")`. -/
def normalizePriorityKey (value : String) : String :=
  let lowered := jsToLower value
  let dashed := lowered.data.map (fun c => if isKeyChar c then c else '-')
  String.mk (stripEnds '-' (squashRun '-' dashed))

/-! ### Priority ranking (`task-helpers.ts:36-85`) -/

def DEFAULT_MEETING_PRIORITY : String := "Meetings"

def PRIORITY_SEQUENCE : List String :=
  ["remember", "quick-task", "1st-priority", "2nd-priority", "3rd-priority",
   "4th-priority", "5th-priority", "errand", "meetings"]

def PRIORITY_ALIASES : List (String × String) :=
  [("first-priority", "1st-priority"),
   ("second-priority", "2nd-priority"),
   ("third-priority", "3rd-priority"),
   ("fourth-priority", "4th-priority"),
   ("fifth-priority", "5th-priority")]

/-- Association-list lookup, modelling plain-object own-property lookup. -/
def lookupStr (table : List (String × α)) (key : String) : Option α :=
  (table.find? (fun p => p.1 == key)).map (·.2)

/-- `PRIORITY_ORDER` (`task-helpers.ts:58-61`): each sequence entry mapped
to its 0-based index. -/
def PRIORITY_ORDER : List (String × Nat) :=
  PRIORITY_SEQUENCE.enum.map (fun p => (p.2, p.1))

/-- `prioritySortIndex` (`task-helpers.ts:71-85`).  The JS guard
`if (!priority)` is true for `undefined` and for the empty string. -/
def prioritySortIndex (priority : Option String) : Nat :=
  match priority with
  | none => PRIORITY_SEQUENCE.length + 1
  | some p =>
    if p = "" then PRIORITY_SEQUENCE.length + 1
    else
      let normalizedKey := normalizePriorityKey p
      if normalizedKey = "" then PRIORITY_SEQUENCE.length + 1
      else
        let mappedKey := (lookupStr PRIORITY_ALIASES normalizedKey).getD normalizedKey
        match lookupStr PRIORITY_ORDER mappedKey with
        | some index => index
        | none => PRIORITY_SEQUENCE.length + 1

/-! ### Date comparison and task sorting (`task-helpers.ts:87-108`) -/

/-- JS falsiness of an optional string: `undefined` and `""` are falsy. -/
def strFalsy : Option String → Bool
  | none => true
  | some s => s = ""

/-- Sign-model of `a.localeCompare(b)` on the default locale: only the
sign is ever consumed, and on the ISO-date / lowercased-ASCII strings the
callers feed it the sign agrees with lexicographic codepoint order. -/
def localeCompare (a b : String) : Int :=
  if a < b then -1 else if b < a then 1 else 0

/-- `compareDateStrings` (`task-helpers.ts:87-92`); `!a` / `!b` are the
JS falsy tests. -/
def compareDateStrings (a b : Option String) : Int :=
  if strFalsy a && strFalsy b then 0
  else if strFalsy a then 1
  else if strFalsy b then -1
  else localeCompare (a.getD "") (b.getD "")

/-- `NotionTask` (`task-helpers.ts:10-19`). -/
structure NotionTask where
  id : String
  title : String
  priority : Option String := none
  status : Option String := none
  pillar : Option String := none
  project : Option String := none
  url : Option String := none
  due : Option String := none
deriving DecidableEq, Repr

/-- The comparator passed to `Array.prototype.sort` in `sortTasks`
(`task-helpers.ts:94-108`).  The title tie-break
`localeCompare(..., { sensitivity: "base" })` is modelled as comparison
of the lowercased titles. -/
def cmpTasks (a b : NotionTask) : Int :=
  let dueCompare := compareDateStrings a.due b.due
  if dueCompare ≠ 0 then dueCompare
  else
    let priorityCompare :=
      (prioritySortIndex a.priority : Int) - (prioritySortIndex b.priority : Int)
    if priorityCompare ≠ 0 then priorityCompare
    else localeCompare (jsToLower a.title) (jsToLower b.title)

/-- Boolean "comparator says not-after" relation derived from `cmpTasks`. -/
def taskLE (a b : NotionTask) : Bool :=
  cmpTasks a b ≤ 0

/-- `sortTasks` (`task-helpers.ts:94-108`): `Array.prototype.sort` is a
stable comparison sort, modelled by the verified stable `List.mergeSort`. -/
def sortTasks (tasks : List NotionTask) : List NotionTask :=
  tasks.mergeSort taskLE

/-! ### Metric keys and `sanitizeMetricsOrder` (`task-helpers.ts:21,63-65,137-162`) -/

inductive MetricKey where
  | total | completed | active | nextMeeting | byPillar | byProject
deriving DecidableEq, Repr

/-- The string literal backing each `MetricKey` union member. -/
def metricKeyName : MetricKey → String
  | .total => "total"
  | .completed => "completed"
  | .active => "active"
  | .nextMeeting => "nextMeeting"
  | .byPillar => "byPillar"
  | .byProject => "byProject"

def METRIC_VALUES : List MetricKey :=
  [.total, .completed, .active, .nextMeeting, .byPillar, .byProject]

def DEFAULT_METRICS_ORDER : List MetricKey := METRIC_VALUES

/-- An `unknown` JS value as far as `sanitizeMetricsOrder` can observe it:
either a string or something else. -/
inductive JsValue where
  | str (s : String)
  | other
deriving DecidableEq, Repr

/-- The `unknown` input of `sanitizeMetricsOrder`: an array, a string, or
any other value. -/
inductive MetricsInput where
  | arr (xs : List JsValue)
  | strInput (s : String)
  | other
deriving DecidableEq, Repr

/-- `task-helpers.ts:138-145`: build `candidateArray` from the input. -/
def metricsCandidates : MetricsInput → List JsValue
  | .arr xs => xs
  | .strInput s =>
      (((splitComma s).map jsTrim).filter (fun piece => piece.length > 0)).map .str
  | .other => []

/-- `task-helpers.ts:148-155`: the loop over `candidateArray`; the JS
`Set` keeps first-insertion order, modelled by a duplicate-free list. -/
def metricsLoop : List JsValue → List MetricKey → List MetricKey
  | [], seen => seen
  | .other :: rest, seen => metricsLoop rest seen
  | .str s :: rest, seen =>
    let normalized := jsTrim s
    match METRIC_VALUES.find? (fun v => jsToLower (metricKeyName v) == jsToLower normalized) with
    | some metric =>
      if metric ∈ seen then metricsLoop rest seen
      else metricsLoop rest (seen ++ [metric])
    | none => metricsLoop rest seen

/-- `sanitizeMetricsOrder` (`task-helpers.ts:137-162`). -/
def sanitizeMetricsOrder (input : MetricsInput) : List MetricKey :=
  let seen := metricsLoop (metricsCandidates input) []
  if seen.length = 0 then DEFAULT_METRICS_ORDER else seen

/-! ### Summary aggregation (`task-helpers.ts:164-245`) -/

/-- `normalizeComparable` (`task-helpers.ts:234-236`). -/
def normalizeComparable (value : Option String) : String :=
  jsToLower (jsTrim (value.getD ""))

/-- `isTaskCompleted` (`task-helpers.ts:229-232`); `!task.status` is the
JS falsy test (true for `undefined` and `""`). -/
def isTaskCompleted (task : NotionTask) (doneValue : String) : Bool :=
  match task.status with
  | none => false
  | some s =>
    if s = "" then false
    else normalizeComparable (some s) == normalizeComparable (some doneValue)

/-- `displayLabel` (`task-helpers.ts:238-241`). -/
def displayLabel (value : Option String) (fallback : String) : String :=
  match value.map jsTrim with
  | some trimmed => if trimmed.length > 0 then trimmed else fallback
  | none => fallback

/-- `incrementCount` (`task-helpers.ts:243-245`): a JS
`Record<string, number>` is an insertion-ordered map with unique keys,
modelled by an association list. -/
def incrementCount : List (String × Nat) → String → List (String × Nat)
  | [], key => [(key, 1)]
  | p :: rest, key =>
    if p.1 == key then (p.1, p.2 + 1) :: rest
    else p :: incrementCount rest key

/-- JS `Set.add`: append if not already present. -/
def setAdd (l : List String) (s : String) : List String :=
  if s ∈ l then l else l ++ [s]

/-- The `meetingKeys` set built in `buildTaskSummary`
(`task-helpers.ts:176-181`): the normalized explicit override is added
only when it is non-empty. -/
def meetingKeysFor (meetingPriority : String) : List String :=
  let normalizedExplicit := normalizePriorityKey meetingPriority
  let l : List String := []
  let l := if normalizedExplicit ≠ "" then setAdd l normalizedExplicit else l
  let l := setAdd l (normalizePriorityKey DEFAULT_MEETING_PRIORITY)
  let l := setAdd l "meeting"
  setAdd l "meetings"

/-- `meetingKeys.has(normalizePriorityKey(task.priority ?? ""))`
(`task-helpers.ts:198,202`). -/
def taskIsMeeting (keys : List String) (task : NotionTask) : Bool :=
  keys.contains (normalizePriorityKey (task.priority.getD ""))

/-- Mutable loop state of the single pass in `buildTaskSummary`
(`task-helpers.ts:170-174`). -/
structure LoopState where
  completed : Nat
  activeTasks : List NotionTask
  byPillar : List (String × Nat)
  byProject : List (String × Nat)
  nextMeeting : Option NotionTask
deriving DecidableEq, Repr

/-- One iteration of the `for (const task of tasks)` loop
(`task-helpers.ts:183-208`). -/
def processTask (doneValue : String) (keys : List String)
    (st : LoopState) (task : NotionTask) : LoopState :=
  if isTaskCompleted task doneValue then
    { st with completed := st.completed + 1 }
  else
    let st := { st with
      activeTasks := st.activeTasks ++ [task],
      byPillar := incrementCount st.byPillar (displayLabel task.pillar "Unspecified"),
      byProject := incrementCount st.byProject (displayLabel task.project "Unspecified") }
    match st.nextMeeting with
    | none =>
      if taskIsMeeting keys task then { st with nextMeeting := some task } else st
    | some nm =>
      if taskIsMeeting keys task && decide (compareDateStrings task.due nm.due < 0) then
        { st with nextMeeting := some task }
      else st

/-- `TaskSummary` (`task-helpers.ts:23-34`). -/
structure TaskSummary where
  total : Nat
  completed : Nat
  active : Nat
  activeTasks : List NotionTask
  byPillar : List (String × Nat)
  byProject : List (String × Nat)
  nextMeeting : Option NotionTask
  meetingPriority : String
  metricsOrder : List MetricKey
  generatedAt : Nat
deriving Repr

/-- `buildTaskSummary` (`task-helpers.ts:164-227`).  `Date.now()` is the
explicit `now` argument. -/
def buildTaskSummary (tasks : List NotionTask) (doneValue : String)
    (meetingPriority : String) (metricsOrder : List MetricKey) (now : Nat) :
    TaskSummary :=
  let keys := meetingKeysFor meetingPriority
  let st := tasks.foldl (processTask doneValue keys) ⟨0, [], [], [], none⟩
  let nextMeeting :=
    match st.nextMeeting with
    | some nm => some nm
    | none =>
      if st.activeTasks.length > 0 then (sortTasks st.activeTasks).head? else none
  { total := tasks.length
    completed := st.completed
    active := st.activeTasks.length
    activeTasks := sortTasks st.activeTasks
    byPillar := st.byPillar
    byProject := st.byProject
    nextMeeting := nextMeeting
    meetingPriority := meetingPriority
    metricsOrder := metricsOrder
    generatedAt := now }

/-! ### Property extraction (`task-helpers.ts:1-8,110-135`) -/

/-- `{ name?: string }` option records. -/
structure NameOpt where
  name : Option String := none
deriving DecidableEq, Repr

/-- `{ plain_text: string }` rich-text fragments. -/
structure RichFrag where
  plain_text : String
deriving DecidableEq, Repr

/-- `{ start?: string | null; end?: string | null }` date ranges
(`null` and `undefined` both collapse to `none`). -/
structure DateRange where
  start : Option String := none
  stop : Option String := none
deriving DecidableEq, Repr

/-- `NotionPropertyValue` (`task-helpers.ts:1-8`), extended with the
`title` fragment array carried by the query-response property records
(`notion-today.ts:723-734`). -/
structure NotionPropertyValue where
  type : String
  status : Option NameOpt := none
  select : Option NameOpt := none
  multi_select : Option (List NameOpt) := none
  rich_text : Option (List RichFrag) := none
  date : Option DateRange := none
  title : Option (List RichFrag) := none
deriving DecidableEq, Repr

/-- JS `expr || undefined` on an optional string: `""` becomes absent. -/
def orUndef : Option String → Option String
  | none => none
  | some s => if s = "" then none else some s

/-- Whitespace-run collapse `raw.replace(/\s+/g, " ")`
(`task-helpers.ts:121`). -/
def collapseWhitespace (s : String) : String :=
  String.mk (squashRun ' ' (s.data.map (fun c => if c.isWhitespace then ' ' else c)))

/-- `extractPropertyText` (`task-helpers.ts:110-127`). -/
def extractPropertyText (prop : Option NotionPropertyValue) : Option String :=
  match prop with
  | none => none
  | some prop =>
    if prop.type = "status" then
      orUndef ((prop.status.bind (·.name)).map jsTrim)
    else if prop.type = "select" then
      orUndef ((prop.select.bind (·.name)).map jsTrim)
    else if prop.type = "multi_select" then
      orUndef (((prop.multi_select.bind (·.head?)).bind (·.name)).map jsTrim)
    else if prop.type = "rich_text" then
      let raw :=
        match prop.rich_text with
        | some pieces => joinSep " " (pieces.map (·.plain_text))
        | none => ""
      let normalized := jsTrim (collapseWhitespace raw)
      if normalized.length > 0 then some normalized else none
    else none

/-- `extractDateValue` (`task-helpers.ts:129-135`); `!value` is the JS
falsy test. -/
def extractDateValue (prop : Option NotionPropertyValue) : Option String :=
  match prop with
  | none => none
  | some p =>
    if p.type ≠ "date" then none
    else
      match p.date.bind (·.start) with
      | none => none
      | some value =>
        if value = "" then none
        else
          let trimmed := jsTrim value
          if trimmed.length > 0 then some trimmed else none

/-! ### Task extraction from a query-response page
(`notion-today.ts:719-736,796-820`) -/

/-- One element of `NotionQueryResponse.results`. -/
structure Page where
  id : String
  url : Option String := none
  properties : List (String × NotionPropertyValue) := []
deriving DecidableEq, Repr

/-- The property-name configuration consumed by `extractTask`
(the `Pick<NormalizedSettings, ...>` in `notion-today.ts:798`). -/
structure ExtractSettings where
  statusProp : Option String := none
  priorityProp : Option String := none
  dateProp : Option String := none
  pillarProp : Option String := none
  projectProp : Option String := none
deriving DecidableEq, Repr

/-- `page.properties[name]`: own-property lookup on the record. -/
def propLookup (props : List (String × NotionPropertyValue)) (name : String) :
    Option NotionPropertyValue :=
  (props.find? (fun p => p.1 == name)).map (·.2)

/-- JS `settings.x ? f(...) : undefined`: the guard is falsy for
`undefined` and `""`. -/
def ifConfigured (nameOpt : Option String)
    (f : String → Option String) : Option String :=
  match nameOpt with
  | none => none
  | some name => if name = "" then none else f name

/-- `extractTask` (`notion-today.ts:796-820`).  The title is
`titleProperty?.title?.map(piece => piece.plain_text).join("") ?? "(untitled)"`:
the fallback fires only when the chained access is nullish. -/
def extractTask (page : Page) (settings : ExtractSettings) : NotionTask :=
  let titleProperty := (page.properties.map (·.2)).find? (fun p => p.type == "title")
  let title :=
    match titleProperty.bind (·.title) with
    | some frags => String.join (frags.map (·.plain_text))
    | none => "(untitled)"
  { id := page.id
    title := title
    priority := ifConfigured settings.priorityProp
      (fun n => extractPropertyText (propLookup page.properties n))
    status := ifConfigured settings.statusProp
      (fun n => extractPropertyText (propLookup page.properties n))
    pillar := ifConfigured settings.pillarProp
      (fun n => extractPropertyText (propLookup page.properties n))
    project := ifConfigured settings.projectProp
      (fun n => extractPropertyText (propLookup page.properties n))
    due := ifConfigured settings.dateProp
      (fun n => extractDateValue (propLookup page.properties n))
    url := page.url }

/-! ### Fetch layer (`notion-today.ts:585-708`) -/

/-- A schema entry of `settings._dbProperties`. -/
structure DbProp where
  type : String
deriving DecidableEq, Repr

/-- The slice of `NormalizedSettings` that `queryNotion` consults. -/
structure QuerySettings extends ExtractSettings where
  dbProperties : Option (List (String × DbProp)) := none
deriving DecidableEq, Repr

/-- One behaviour of the HTTP layer for one `fetch` attempt: either the
call (or reading its body) throws, or it yields a response with a status,
an optional `Retry-After` value, the raw body text, and the outcome of
parsing the body as a query response (`.error` when `res.json()` throws). -/
inductive FetchOutcome where
  | throwEx (msg : String)
  | resp (status : Nat) (retryAfter : Option Nat) (text : String)
      (json : Except String (List Page))

/-- The fetch result type
`{ tasks: NotionTask[]; error?: string }` (`notion-today.ts:585,637`). -/
structure QueryResult where
  tasks : List NotionTask
  error : Option String := none
deriving DecidableEq, Repr

/-- `res.ok`: status in the 2xx range. -/
def httpOk (status : Nat) : Bool := 200 ≤ status && status ≤ 299

/-- The configuration-validation prefix of `queryNotion`
(`notion-today.ts:639-665`), returning the error string it produces, if
any.  `!settings.dateProp` is the JS falsy test. -/
def queryValidationError (s : QuerySettings) : Option String :=
  match s.dateProp with
  | none => some "Please select a date property in the settings"
  | some dateProp =>
    if dateProp = "" then some "Please select a date property in the settings"
    else
      match s.dbProperties with
      | none => some "Database properties not loaded. Please refresh the settings."
      | some props =>
        match (props.find? (fun p => p.1 == dateProp)).map (·.2) with
        | none => some ("The selected date property \x22" ++ dateProp ++
            "\x22 was not found in the database. Please check your settings.")
        | some p =>
          if p.type ≠ "date" then
            some ("The selected property \x22" ++ dateProp ++
              "\x22 is not a date property (type: " ++ p.type ++
              "). Please select a date property.")
          else none

/-- `queryNotion` (`notion-today.ts:637-708`).  The whole body sits in a
`try`/`catch` whose `catch` returns `{ tasks: [], error: String(error) }`,
so thrown exceptions of the HTTP layer (`FetchOutcome.throwEx`, a failing
`res.json()`, or an exhausted behaviour list) become error results.  A
429 response waits and re-enters `queryNotion` on the remaining
behaviours. -/
def queryNotion (s : QuerySettings) : List FetchOutcome → QueryResult
  | [] =>
    match queryValidationError s with
    | some e => { tasks := [], error := some e }
    | none => { tasks := [], error := some "TypeError: fetch failed" }
  | outcome :: rest =>
    match queryValidationError s with
    | some e => { tasks := [], error := some e }
    | none =>
      match outcome with
      | .throwEx msg => { tasks := [], error := some msg }
      | .resp status _ text json =>
        if status = 429 then queryNotion s rest
        else if ¬ httpOk status then
          { tasks := [], error := some ("HTTP " ++ toString status ++ ": " ++ text) }
        else
          match json with
          | .error msg => { tasks := [], error := some msg }
          | .ok pages =>
            { tasks := sortTasks (pages.map (extractTask · s.toExtractSettings))
              error := none }

/-- The coordinator fields consulted by `fetchTodayTasks`
(`notion-today.ts:585-605`); the in-flight promise-deduplication field is
a concurrency artefact outside this sequential model. -/
structure CoordState where
  cacheKey : Option String := none
  cachedTasks : List NotionTask := []
  lastFetch : Option Nat := none

/-- Freshness test `this.lastFetch && Date.now() - this.lastFetch < 60_000`. -/
def cacheFresh (lastFetch : Option Nat) (now : Nat) : Bool :=
  match lastFetch with
  | some t => now - t < 60000
  | none => false

/-- `fetchTodayTasks` (`notion-today.ts:585-605`) as a sequential state
transformer: serve the cache inside the freshness window, otherwise run
`queryNotion` and cache its tasks on success. -/
def fetchTodayTasks (st : CoordState) (s : QuerySettings) (cacheKey : String)
    (force : Bool) (now : Nat) (outcomes : List FetchOutcome) :
    QueryResult × CoordState :=
  let inWindow : Bool := st.cacheKey == some cacheKey &&
    decide (0 < st.cachedTasks.length) && cacheFresh st.lastFetch now
  if !force && inWindow then ({ tasks := st.cachedTasks, error := none }, st)
  else
    let st := { st with cacheKey := some cacheKey }
    let result := queryNotion s outcomes
    if result.error = none then
      (result, { st with cachedTasks := result.tasks, lastFetch := some now })
    else (result, st)

/-! ### Order theory of the comparators -/

/-- The effective first sort key of `compareDateStrings`: a falsy due
value (`undefined` or `""`) maps to the maximal bucket `(true, "")`, a
present date to `(false, date)`; keys are ordered flag-first. -/
def dueKey (d : Option String) : Bool × String :=
  if strFalsy d then (true, "") else (false, d.getD "")

/-- Strict order on due keys: present before absent, present dates by
lexicographic string order. -/
def dueKeyLT (x y : Bool × String) : Prop :=
  (x.1 = false ∧ y.1 = true) ∨ (x.1 = y.1 ∧ x.2 < y.2)

theorem localeCompare_lt_iff {a b : String} : localeCompare a b < 0 ↔ a < b := by
  unfold localeCompare
  split_ifs with h1 h2
  · exact iff_of_true (by norm_num) h1
  · exact iff_of_false (by norm_num) h1
  · exact iff_of_false (lt_irrefl 0) h1

theorem localeCompare_eq_iff {a b : String} : localeCompare a b = 0 ↔ a = b := by
  unfold localeCompare
  split_ifs with h1 h2
  · exact iff_of_false (by norm_num) (ne_of_lt h1)
  · exact iff_of_false (by norm_num) (ne_of_lt h2).symm
  · exact iff_of_true rfl (le_antisymm (not_lt.mp h2) (not_lt.mp h1))

theorem compareDateStrings_lt_iff {a b : Option String} :
    compareDateStrings a b < 0 ↔ dueKeyLT (dueKey a) (dueKey b) := by
  unfold compareDateStrings dueKey dueKeyLT
  cases ha : strFalsy a <;> cases hb : strFalsy b <;>
    simp [localeCompare_lt_iff]

theorem compareDateStrings_eq_iff {a b : Option String} :
    compareDateStrings a b = 0 ↔ dueKey a = dueKey b := by
  unfold compareDateStrings dueKey
  cases ha : strFalsy a <;> cases hb : strFalsy b <;>
    simp [localeCompare_eq_iff, Prod.ext_iff]

theorem dueKeyLT_trans {x y z : Bool × String} :
    dueKeyLT x y → dueKeyLT y z → dueKeyLT x z := by
  rcases x with ⟨fx, sx⟩; rcases y with ⟨fy, sy⟩; rcases z with ⟨fz, sz⟩
  rintro (⟨h1, h2⟩ | ⟨h1, h2⟩) (⟨h3, h4⟩ | ⟨h3, h4⟩)
  · rw [h2] at h3
    exact absurd h3 (by decide)
  · exact Or.inl ⟨h1, h3 ▸ h2⟩
  · exact Or.inl ⟨h1.trans h3, h4⟩
  · exact Or.inr ⟨h1.trans h3, lt_trans h2 h4⟩

theorem dueKeyLT_trichotomy (x y : Bool × String) :
    dueKeyLT x y ∨ x = y ∨ dueKeyLT y x := by
  rcases x with ⟨fx, sx⟩; rcases y with ⟨fy, sy⟩
  cases fx <;> cases fy
  · rcases lt_trichotomy sx sy with h | h | h
    · exact Or.inl (Or.inr ⟨rfl, h⟩)
    · exact Or.inr (Or.inl (by rw [h]))
    · exact Or.inr (Or.inr (Or.inr ⟨rfl, h⟩))
  · exact Or.inl (Or.inl ⟨rfl, rfl⟩)
  · exact Or.inr (Or.inr (Or.inl ⟨rfl, rfl⟩))
  · rcases lt_trichotomy sx sy with h | h | h
    · exact Or.inl (Or.inr ⟨rfl, h⟩)
    · exact Or.inr (Or.inl (by rw [h]))
    · exact Or.inr (Or.inr (Or.inr ⟨rfl, h⟩))

theorem dueKeyLT_irrefl (x : Bool × String) : ¬ dueKeyLT x x := by
  rcases x with ⟨fx, sx⟩
  rintro (⟨h1, h2⟩ | ⟨h1, h2⟩)
  · simp_all
  · exact lt_irrefl _ h2

/-- The composite strict order on tasks that the spec describes: due key
first, then priority rank, then lowercased title. -/
def taskKeyLT (a b : NotionTask) : Prop :=
  dueKeyLT (dueKey a.due) (dueKey b.due) ∨
    (dueKey a.due = dueKey b.due ∧
      (prioritySortIndex a.priority < prioritySortIndex b.priority ∨
        (prioritySortIndex a.priority = prioritySortIndex b.priority ∧
          jsToLower a.title < jsToLower b.title)))

/-- Equality of the full composite sort key. -/
def taskKeyEq (a b : NotionTask) : Prop :=
  dueKey a.due = dueKey b.due ∧
    prioritySortIndex a.priority = prioritySortIndex b.priority ∧
    jsToLower a.title = jsToLower b.title

/-- Composite "not after": strictly earlier or tied on all three keys. -/
def taskKeyLE (a b : NotionTask) : Prop := taskKeyLT a b ∨ taskKeyEq a b

theorem cmpTasks_unfold (a b : NotionTask) :
    cmpTasks a b =
      if compareDateStrings a.due b.due ≠ 0 then compareDateStrings a.due b.due
      else
        if (prioritySortIndex a.priority : Int) -
            (prioritySortIndex b.priority : Int) ≠ 0 then
          (prioritySortIndex a.priority : Int) - (prioritySortIndex b.priority : Int)
        else localeCompare (jsToLower a.title) (jsToLower b.title) := rfl

theorem cmpTasks_lt_iff {a b : NotionTask} :
    cmpTasks a b < 0 ↔ taskKeyLT a b := by
  rw [cmpTasks_unfold]
  unfold taskKeyLT
  by_cases hd : compareDateStrings a.due b.due = 0
  · have hdk : dueKey a.due = dueKey b.due := compareDateStrings_eq_iff.mp hd
    have hdk' : ¬ dueKeyLT (dueKey a.due) (dueKey b.due) := hdk ▸ dueKeyLT_irrefl _
    rw [if_neg (not_not_intro hd)]
    by_cases hp : (prioritySortIndex a.priority : Int) -
        (prioritySortIndex b.priority : Int) = 0
    · have hpe : prioritySortIndex a.priority = prioritySortIndex b.priority := by omega
      rw [if_neg (not_not_intro hp)]
      constructor
      · intro h
        exact Or.inr ⟨hdk, Or.inr ⟨hpe, localeCompare_lt_iff.mp h⟩⟩
      · rintro (h | ⟨-, h | ⟨-, h⟩⟩)
        · exact absurd h hdk'
        · exact absurd h (by omega)
        · exact localeCompare_lt_iff.mpr h
    · rw [if_pos hp]
      constructor
      · intro h
        exact Or.inr ⟨hdk, Or.inl (by omega)⟩
      · rintro (h | ⟨-, h | ⟨h, -⟩⟩)
        · exact absurd h hdk'
        · omega
        · omega
  · rw [if_pos hd]
    constructor
    · intro h
      exact Or.inl (compareDateStrings_lt_iff.mp h)
    · rintro (h | ⟨h, -⟩)
      · exact compareDateStrings_lt_iff.mpr h
      · exact absurd (compareDateStrings_eq_iff.mpr h) hd

theorem cmpTasks_eq_iff {a b : NotionTask} :
    cmpTasks a b = 0 ↔ taskKeyEq a b := by
  rw [cmpTasks_unfold]
  unfold taskKeyEq
  by_cases hd : compareDateStrings a.due b.due = 0
  · have hdk : dueKey a.due = dueKey b.due := compareDateStrings_eq_iff.mp hd
    rw [if_neg (not_not_intro hd)]
    by_cases hp : (prioritySortIndex a.priority : Int) -
        (prioritySortIndex b.priority : Int) = 0
    · have hpe : prioritySortIndex a.priority = prioritySortIndex b.priority := by omega
      rw [if_neg (not_not_intro hp)]
      constructor
      · intro h
        exact ⟨hdk, hpe, localeCompare_eq_iff.mp h⟩
      · rintro ⟨-, -, h⟩
        exact localeCompare_eq_iff.mpr h
    · rw [if_pos hp]
      constructor
      · intro h
        exact absurd h hp
      · rintro ⟨-, h, -⟩
        omega
  · rw [if_pos hd]
    constructor
    · intro h
      exact absurd h hd
    · rintro ⟨h, -, -⟩
      exact absurd (compareDateStrings_eq_iff.mpr h) hd

theorem cmpTasks_le_iff {a b : NotionTask} :
    cmpTasks a b ≤ 0 ↔ taskKeyLE a b := by
  have h1 := @cmpTasks_lt_iff a b
  have h2 := @cmpTasks_eq_iff a b
  unfold taskKeyLE
  constructor
  · intro h
    rcases lt_or_eq_of_le h with h' | h'
    · exact Or.inl (h1.mp h')
    · exact Or.inr (h2.mp h')
  · rintro (h | h)
    · exact le_of_lt (h1.mpr h)
    · exact le_of_eq (h2.mpr h)

theorem taskKeyLE_trans {a b c : NotionTask} :
    taskKeyLE a b → taskKeyLE b c → taskKeyLE a c := by
  rintro (hab | hab) (hbc | hbc)
  · rcases hab with hd | ⟨hd, hp⟩ <;> rcases hbc with hd' | ⟨hd', hp'⟩
    · exact Or.inl (Or.inl (dueKeyLT_trans hd hd'))
    · exact Or.inl (Or.inl (hd' ▸ hd))
    · exact Or.inl (Or.inl (hd ▸ hd'))
    · refine Or.inl (Or.inr ⟨hd.trans hd', ?_⟩)
      rcases hp with hp | ⟨hp, ht⟩ <;> rcases hp' with hp' | ⟨hp', ht'⟩
      · exact Or.inl (lt_trans hp hp')
      · exact Or.inl (hp' ▸ hp)
      · exact Or.inl (hp ▸ hp')
      · exact Or.inr ⟨hp.trans hp', lt_trans ht ht'⟩
  · rcases hbc with ⟨hd', hp', ht'⟩
    rcases hab with hd | ⟨hd, hp⟩
    · exact Or.inl (Or.inl (hd' ▸ hd))
    · refine Or.inl (Or.inr ⟨hd.trans hd', ?_⟩)
      rcases hp with hp | ⟨hp, ht⟩
      · exact Or.inl (hp' ▸ hp)
      · exact Or.inr ⟨hp.trans hp', ht' ▸ ht⟩
  · rcases hab with ⟨hd, hp, ht⟩
    rcases hbc with hd' | ⟨hd', hp'⟩
    · exact Or.inl (Or.inl (hd ▸ hd'))
    · refine Or.inl (Or.inr ⟨hd.trans hd', ?_⟩)
      rcases hp' with hp' | ⟨hp', ht'⟩
      · exact Or.inl (hp ▸ hp')
      · exact Or.inr ⟨hp.trans hp', ht ▸ ht'⟩
  · rcases hab with ⟨hd, hp, ht⟩
    rcases hbc with ⟨hd', hp', ht'⟩
    exact Or.inr ⟨hd.trans hd', hp.trans hp', ht.trans ht'⟩

theorem taskKeyLE_total (a b : NotionTask) : taskKeyLE a b ∨ taskKeyLE b a := by
  rcases dueKeyLT_trichotomy (dueKey a.due) (dueKey b.due) with hd | hd | hd
  · exact Or.inl (Or.inl (Or.inl hd))
  · rcases lt_trichotomy (prioritySortIndex a.priority)
        (prioritySortIndex b.priority) with hp | hp | hp
    · exact Or.inl (Or.inl (Or.inr ⟨hd, Or.inl hp⟩))
    · rcases lt_trichotomy (jsToLower a.title) (jsToLower b.title) with ht | ht | ht
      · exact Or.inl (Or.inl (Or.inr ⟨hd, Or.inr ⟨hp, ht⟩⟩))
      · exact Or.inl (Or.inr ⟨hd, hp, ht⟩)
      · exact Or.inr (Or.inl (Or.inr ⟨hd.symm, Or.inr ⟨hp.symm, ht⟩⟩))
    · exact Or.inr (Or.inl (Or.inr ⟨hd.symm, Or.inl hp⟩))
  · exact Or.inr (Or.inl (Or.inl hd))

theorem taskLE_trans (a b c : NotionTask) :
    taskLE a b → taskLE b c → taskLE a c := by
  simp only [taskLE, decide_eq_true_eq]
  intro h1 h2
  exact cmpTasks_le_iff.mpr (taskKeyLE_trans (cmpTasks_le_iff.mp h1) (cmpTasks_le_iff.mp h2))

theorem taskLE_total (a b : NotionTask) : taskLE a b || taskLE b a := by
  simp only [taskLE, Bool.or_eq_true, decide_eq_true_eq]
  rcases taskKeyLE_total a b with h | h
  · exact Or.inl (cmpTasks_le_iff.mpr h)
  · exact Or.inr (cmpTasks_le_iff.mpr h)

/-! ### Claim C1: `sortTasks` ordering, permutation, idempotence -/

/-- Claim-side due-date key order exactly as claim C1 words it: a task
with an absent due date (`none`) sorts strictly after every task with a
present due date (any `some` value), two absent dues are equal, and two
present dues compare by lexicographic string order. -/
def claimDueLT (a b : Option String) : Bool :=
  match a, b with
  | some x, some y => x < y
  | some _, none => true
  | none, _ => false

/-- **C1, counterexample.**  The code treats an *empty-string* due date
as absent (`compareDateStrings`, `task-helpers.ts:88-89`, uses the JS
falsy tests `!a`/`!b`): `sortTasks` places a task with `due = ""` after a
task with `due = "2025-01-01"`, yet the claim's first key — lexicographic
comparison of present due dates — orders `""` strictly before
`"2025-01-01"`, so the output is not ordered by the claim's composite
key. -/
theorem sortTasks_c1_counterexample :
    sortTasks [⟨"1", "a", none, none, none, none, none, some ""⟩,
               ⟨"2", "b", none, none, none, none, none, some "2025-01-01"⟩] =
      [⟨"2", "b", none, none, none, none, none, some "2025-01-01"⟩,
       ⟨"1", "a", none, none, none, none, none, some ""⟩] ∧
    claimDueLT (some "") (some "2025-01-01") = true ∧
    claimDueLT (some "2025-01-01") (some "") = false := by
  refine ⟨?_, ?_, ?_⟩
  case refine_2 =>
    simp only [claimDueLT, decide_eq_true_eq, String.lt_iff_toList_lt]
    decide
  case refine_3 =>
    simp only [claimDueLT, decide_eq_false_iff_not, String.lt_iff_toList_lt]
    decide
  simp [sortTasks, List.mergeSort, List.splitInTwo, List.merge, taskLE]
  norm_num [cmpTasks_unfold, compareDateStrings, strFalsy]
  decide

/-- **C1, amended.**  For every list of tasks, `sortTasks` returns a
permutation of the input ordered by the three-key composite sort in
strict precedence: (1) due date ascending by lexicographic string
comparison, where a task whose due date is absent *or the empty string*
sorts strictly after every task with a present non-empty due date and two
such tasks compare equal at this key (`taskKeyLE` spells out this
composite order via `dueKey`/`dueKeyLT`); (2) priority rank ascending per
`prioritySortIndex`; (3) case-insensitive title comparison as the final
tie-break; and applying `sortTasks` to its own output yields the same
list (idempotence). -/
theorem sortTasks_c1_amended (tasks : List NotionTask) :
    (sortTasks tasks).Perm tasks ∧
    List.Pairwise taskKeyLE (sortTasks tasks) ∧
    sortTasks (sortTasks tasks) = sortTasks tasks := by
  refine ⟨List.mergeSort_perm tasks taskLE, ?_, ?_⟩
  · have h := List.sorted_mergeSort taskLE_trans taskLE_total tasks
    exact h.imp (fun hab => cmpTasks_le_iff.mp (by simpa [taskLE] using hab))
  · exact List.mergeSort_of_sorted (List.sorted_mergeSort taskLE_trans taskLE_total tasks)

/-! ### The aggregation loop, dissected -/

/-- Total count held in a histogram. -/
def sumCounts (store : List (String × Nat)) : Nat :=
  (store.map (·.2)).sum

/-- The grouping histogram that the loop builds for one label dimension. -/
def labelHistogram (tasks : List NotionTask) (label : NotionTask → Option String)
    (init : List (String × Nat)) : List (String × Nat) :=
  tasks.foldl (fun m t => incrementCount m (displayLabel (label t) "Unspecified")) init

/-- One step of the running next-meeting candidate update: take the new
task when there is no candidate yet, or when its due date is strictly
earlier than the candidate's. -/
def minScanStep (c : Option NotionTask) (t : NotionTask) : Option NotionTask :=
  match c with
  | none => some t
  | some m => if compareDateStrings t.due m.due < 0 then some t else some m

theorem sumCounts_incrementCount (store : List (String × Nat)) (key : String) :
    sumCounts (incrementCount store key) = sumCounts store + 1 := by
  induction store with
  | nil => simp [incrementCount, sumCounts]
  | cons p rest ih =>
    cases h : (p.1 == key) <;> simp only [incrementCount, h] <;>
      simp [sumCounts] at ih ⊢ <;> omega

theorem sumCounts_labelHistogram (label : NotionTask → Option String) :
    ∀ (tasks : List NotionTask) (init : List (String × Nat)),
      sumCounts (labelHistogram tasks label init) = sumCounts init + tasks.length := by
  intro tasks
  induction tasks with
  | nil => intro init; simp [labelHistogram]
  | cons t ts ih =>
    intro init
    have : labelHistogram (t :: ts) label init =
        labelHistogram ts label
          (incrementCount init (displayLabel (label t) "Unspecified")) := rfl
    rw [this, ih, sumCounts_incrementCount]
    simp only [List.length_cons]
    omega

theorem countP_not_filter_length (p : NotionTask → Bool) (l : List NotionTask) :
    l.countP p + (l.filter (fun a => !p a)).length = l.length := by
  induction l with
  | nil => simp
  | cons a l ih =>
    cases h : p a <;> simp [List.countP_cons, List.filter_cons, h] <;> omega

theorem processTask_completed {t : NotionTask} {d : String} (keys : List String)
    (st : LoopState) (hc : isTaskCompleted t d = true) :
    processTask d keys st t = { st with completed := st.completed + 1 } := by
  simp [processTask, hc]

theorem processTask_active {t : NotionTask} {d : String} (keys : List String)
    (st : LoopState) (hc : isTaskCompleted t d = false) :
    processTask d keys st t =
      { completed := st.completed
        activeTasks := st.activeTasks ++ [t]
        byPillar := incrementCount st.byPillar (displayLabel t.pillar "Unspecified")
        byProject := incrementCount st.byProject (displayLabel t.project "Unspecified")
        nextMeeting :=
          if taskIsMeeting keys t then minScanStep st.nextMeeting t
          else st.nextMeeting } := by
  simp only [processTask, hc, Bool.false_eq_true, if_false]
  cases hm : st.nextMeeting <;> cases hk : taskIsMeeting keys t <;>
    simp [minScanStep, hm, hk] <;> split <;> rfl

/-- Loop invariant of the single pass in `buildTaskSummary`: every output
component of the fold, expressed compositionally. -/
theorem foldl_processTask (d : String) (keys : List String) :
    ∀ (tasks : List NotionTask) (st : LoopState),
      (tasks.foldl (processTask d keys) st).completed
          = st.completed + tasks.countP (fun t => isTaskCompleted t d) ∧
      (tasks.foldl (processTask d keys) st).activeTasks
          = st.activeTasks ++ tasks.filter (fun t => !(isTaskCompleted t d)) ∧
      (tasks.foldl (processTask d keys) st).byPillar
          = labelHistogram (tasks.filter (fun t => !(isTaskCompleted t d)))
              (·.pillar) st.byPillar ∧
      (tasks.foldl (processTask d keys) st).byProject
          = labelHistogram (tasks.filter (fun t => !(isTaskCompleted t d)))
              (·.project) st.byProject ∧
      (tasks.foldl (processTask d keys) st).nextMeeting
          = (tasks.filter (fun t => !(isTaskCompleted t d) && taskIsMeeting keys t)).foldl
              minScanStep st.nextMeeting := by
  intro tasks
  induction tasks with
  | nil => intro st; simp [labelHistogram]
  | cons t ts ih =>
    intro st
    cases hc : isTaskCompleted t d
    · rw [List.foldl_cons, processTask_active keys st hc]
      rcases ih _ with ⟨h1, h2, h3, h4, h5⟩
      refine ⟨?_, ?_, ?_, ?_, ?_⟩
      · rw [h1]; simp [List.countP_cons, hc]
      · rw [h2]; simp [List.filter_cons, hc]
      · rw [h3]; simp only [List.filter_cons, hc]
        rfl
      · rw [h4]; simp only [List.filter_cons, hc]
        rfl
      · rw [h5]
        cases hk : taskIsMeeting keys t <;>
          simp [List.filter_cons, hc, hk, minScanStep]
    · rw [List.foldl_cons, processTask_completed keys st hc]
      rcases ih _ with ⟨h1, h2, h3, h4, h5⟩
      refine ⟨?_, ?_, ?_, ?_, ?_⟩
      · rw [h1]; simp [List.countP_cons, hc]; omega
      · rw [h2]; simp [List.filter_cons, hc]
      · rw [h3]; simp [List.filter_cons, hc]
      · rw [h4]; simp [List.filter_cons, hc]
      · rw [h5]; simp [List.filter_cons, hc]

/-! ### Claim C2: counting invariants of `buildTaskSummary` -/

/-- **C2.**  For every input task list, done value, meeting priority and
metrics order, the `TaskSummary` returned by `buildTaskSummary` satisfies
`total = completed + active` with `total` the input length, and the
counts in `byPillar` and in `byProject` each sum to `active`. -/
theorem buildTaskSummary_c2 (tasks : List NotionTask) (d mp : String)
    (mo : List MetricKey) (now : Nat) :
    (buildTaskSummary tasks d mp mo now).total = tasks.length ∧
    (buildTaskSummary tasks d mp mo now).total
      = (buildTaskSummary tasks d mp mo now).completed
        + (buildTaskSummary tasks d mp mo now).active ∧
    sumCounts (buildTaskSummary tasks d mp mo now).byPillar
      = (buildTaskSummary tasks d mp mo now).active ∧
    sumCounts (buildTaskSummary tasks d mp mo now).byProject
      = (buildTaskSummary tasks d mp mo now).active := by
  rcases foldl_processTask d (meetingKeysFor mp) tasks ⟨0, [], [], [], none⟩ with
    ⟨h1, h2, h3, h4, -⟩
  have htot : (buildTaskSummary tasks d mp mo now).total = tasks.length := rfl
  have hcomp : (buildTaskSummary tasks d mp mo now).completed
      = tasks.countP (fun t => isTaskCompleted t d) := by
    show (tasks.foldl (processTask d (meetingKeysFor mp)) ⟨0, [], [], [], none⟩).completed = _
    rw [h1]
    simp
  have hact : (buildTaskSummary tasks d mp mo now).active
      = (tasks.filter (fun t => !(isTaskCompleted t d))).length := by
    show (tasks.foldl (processTask d (meetingKeysFor mp)) ⟨0, [], [], [], none⟩).activeTasks.length = _
    rw [h2]
    simp
  refine ⟨htot, ?_, ?_, ?_⟩
  · rw [htot, hcomp, hact]
    have := countP_not_filter_length (fun t => isTaskCompleted t d) tasks
    omega
  · show sumCounts (tasks.foldl (processTask d (meetingKeysFor mp)) ⟨0, [], [], [], none⟩).byPillar = _
    rw [h3, hact, sumCounts_labelHistogram]
    simp [sumCounts]
  · show sumCounts (tasks.foldl (processTask d (meetingKeysFor mp)) ⟨0, [], [], [], none⟩).byProject = _
    rw [h4, hact, sumCounts_labelHistogram]
    simp [sumCounts]

/-! ### Claim C5: completion classification -/

/-- **C5.**  In `buildTaskSummary`, a task is classified completed iff it
has a (non-empty) status label whose trimmed lowercase form equals the
done value's trimmed lowercase form; a task with no status label is never
classified completed; every completed task is counted in `completed` and
excluded from `activeTasks` and from the `byPillar`/`byProject`
histograms (which range over the non-completed tasks only). -/
theorem buildTaskSummary_c5 (tasks : List NotionTask) (d mp : String)
    (mo : List MetricKey) (now : Nat) :
    (∀ t : NotionTask, t.status = none → isTaskCompleted t d = false) ∧
    (∀ (t : NotionTask) (lab : String), t.status = some lab →
      (isTaskCompleted t d = true ↔
        lab ≠ "" ∧ jsToLower (jsTrim lab) = jsToLower (jsTrim d))) ∧
    (buildTaskSummary tasks d mp mo now).completed
      = tasks.countP (fun t => isTaskCompleted t d) ∧
    (∀ t ∈ (buildTaskSummary tasks d mp mo now).activeTasks,
      isTaskCompleted t d = false) ∧
    (buildTaskSummary tasks d mp mo now).byPillar
      = labelHistogram (tasks.filter (fun t => !(isTaskCompleted t d))) (·.pillar) [] ∧
    (buildTaskSummary tasks d mp mo now).byProject
      = labelHistogram (tasks.filter (fun t => !(isTaskCompleted t d))) (·.project) [] := by
  rcases foldl_processTask d (meetingKeysFor mp) tasks ⟨0, [], [], [], none⟩ with
    ⟨h1, h2, h3, h4, -⟩
  refine ⟨?_, ?_, ?_, ?_, ?_, ?_⟩
  · intro t ht
    simp [isTaskCompleted, ht]
  · intro t lab ht
    by_cases hlab : lab = ""
    · simp [isTaskCompleted, ht, hlab]
    · simp [isTaskCompleted, ht, hlab, normalizeComparable]
  · show (tasks.foldl (processTask d (meetingKeysFor mp)) ⟨0, [], [], [], none⟩).completed = _
    rw [h1]
    simp
  · intro t ht
    have : t ∈ (tasks.foldl (processTask d (meetingKeysFor mp))
        ⟨0, [], [], [], none⟩).activeTasks := by
      have hmem : t ∈ sortTasks (tasks.foldl (processTask d (meetingKeysFor mp))
          ⟨0, [], [], [], none⟩).activeTasks := ht
      simpa [sortTasks] using hmem
    rw [h2] at this
    simp only [List.nil_append, List.mem_filter] at this
    simpa using this.2
  · show (tasks.foldl (processTask d (meetingKeysFor mp)) ⟨0, [], [], [], none⟩).byPillar = _
    rw [h3]
  · show (tasks.foldl (processTask d (meetingKeysFor mp)) ⟨0, [], [], [], none⟩).byProject = _
    rw [h4]

/-- **C5, witness.**  Concrete instances discharging the hypotheses of
`buildTaskSummary_c5`: a status-less task is never completed, and a task
whose status label matches the done value up to case and surrounding
whitespace is completed. -/
theorem buildTaskSummary_c5_witness :
    isTaskCompleted ⟨"1", "a", none, none, none, none, none, none⟩ "Done" = false ∧
    (isTaskCompleted ⟨"2", "b", none, some " DONE ", none, none, none, none⟩ "Done" = true ↔
      (" DONE " : String) ≠ "" ∧
        jsToLower (jsTrim " DONE ") = jsToLower (jsTrim "Done")) := by
  constructor
  · exact (buildTaskSummary_c5 [] "Done" "" [] 0).1
      ⟨"1", "a", none, none, none, none, none, none⟩ rfl
  · exact (buildTaskSummary_c5 [] "Done" "" [] 0).2.1
      ⟨"2", "b", none, some " DONE ", none, none, none, none⟩ " DONE " rfl

/-! ### Claim C10: `metricsOrder` passes through unsanitized -/

/-- **C10.**  `buildTaskSummary` applies no sanitization or default
substitution to its `metricsOrder` argument: the summary's `metricsOrder`
contains exactly the argument's elements in the same order, and an empty
argument yields an empty `metricsOrder` (the non-empty default fallback
lives only in `sanitizeMetricsOrder`). -/
theorem buildTaskSummary_c10 (tasks : List NotionTask) (d mp : String)
    (mo : List MetricKey) (now : Nat) :
    (buildTaskSummary tasks d mp mo now).metricsOrder = mo ∧
    (buildTaskSummary tasks d mp [] now).metricsOrder = [] :=
  ⟨rfl, rfl⟩

/-! ### More order facts about `compareDateStrings` -/

theorem localeCompare_flip (a b : String) : localeCompare b a = -localeCompare a b := by
  unfold localeCompare
  rcases lt_trichotomy a b with h | h | h
  · simp [h, asymm h]
  · subst h
    simp [lt_irrefl]
  · simp [h, asymm h]

theorem compareDateStrings_flip (a b : Option String) :
    compareDateStrings b a = -compareDateStrings a b := by
  unfold compareDateStrings
  cases ha : strFalsy a <;> cases hb : strFalsy b <;>
    simp [ha, hb] <;>
    exact localeCompare_flip _ _

theorem compareDateStrings_refl (a : Option String) :
    compareDateStrings a a = 0 :=
  compareDateStrings_eq_iff.mpr rfl

theorem compareDateStrings_le_iff {a b : Option String} :
    compareDateStrings a b ≤ 0 ↔
      dueKeyLT (dueKey a) (dueKey b) ∨ dueKey a = dueKey b := by
  constructor
  · intro h
    rcases lt_or_eq_of_le h with h' | h'
    · exact Or.inl (compareDateStrings_lt_iff.mp h')
    · exact Or.inr (compareDateStrings_eq_iff.mp h')
  · rintro (h | h)
    · exact le_of_lt (compareDateStrings_lt_iff.mpr h)
    · exact le_of_eq (compareDateStrings_eq_iff.mpr h)

theorem compareDateStrings_le_trans {a b c : Option String}
    (h1 : compareDateStrings a b ≤ 0) (h2 : compareDateStrings b c ≤ 0) :
    compareDateStrings a c ≤ 0 := by
  rcases compareDateStrings_le_iff.mp h1 with h1' | h1' <;>
    rcases compareDateStrings_le_iff.mp h2 with h2' | h2'
  · exact compareDateStrings_le_iff.mpr (Or.inl (dueKeyLT_trans h1' h2'))
  · exact compareDateStrings_le_iff.mpr (Or.inl (h2' ▸ h1'))
  · exact compareDateStrings_le_iff.mpr (Or.inl (h1' ▸ h2'))
  · exact compareDateStrings_le_iff.mpr (Or.inr (h1'.trans h2'))

theorem compareDateStrings_lt_of_lt_of_le {a b c : Option String}
    (h1 : compareDateStrings a b < 0) (h2 : compareDateStrings b c ≤ 0) :
    compareDateStrings a c < 0 := by
  have h1' := compareDateStrings_lt_iff.mp h1
  rcases compareDateStrings_le_iff.mp h2 with h2' | h2'
  · exact compareDateStrings_lt_iff.mpr (dueKeyLT_trans h1' h2')
  · exact compareDateStrings_lt_iff.mpr (h2' ▸ h1')

theorem compareDateStrings_lt_of_le_of_lt {a b c : Option String}
    (h1 : compareDateStrings a b ≤ 0) (h2 : compareDateStrings b c < 0) :
    compareDateStrings a c < 0 := by
  have h2' := compareDateStrings_lt_iff.mp h2
  rcases compareDateStrings_le_iff.mp h1 with h1' | h1'
  · exact compareDateStrings_lt_iff.mpr (dueKeyLT_trans h1' h2')
  · exact compareDateStrings_lt_iff.mpr (h1' ▸ h2')

theorem compareDateStrings_le_of_not_lt {a b : Option String}
    (h : ¬ compareDateStrings a b < 0) : compareDateStrings b a ≤ 0 := by
  have := compareDateStrings_flip a b
  omega

/-! ### Characterization of the running minimum scan -/

/-- Folding `minScanStep` from an existing candidate yields the first
occurrence of the minimum (under `compareDateStrings`) among the
candidate and the scanned list: the result is never due-after any scanned
element, and it displaced the original candidate (and everything scanned
before it) only by a strictly earlier due date. -/
theorem minScan_some :
    ∀ (l : List NotionTask) (c : NotionTask),
      ∃ m, l.foldl minScanStep (some c) = some m ∧
        compareDateStrings m.due c.due ≤ 0 ∧
        (∀ t ∈ l, compareDateStrings m.due t.due ≤ 0) ∧
        (m = c ∨ ∃ pre post, l = pre ++ m :: post ∧
          compareDateStrings m.due c.due < 0 ∧
          ∀ t ∈ pre, compareDateStrings m.due t.due < 0) := by
  intro l
  induction l with
  | nil =>
    intro c
    exact ⟨c, rfl, le_of_eq (compareDateStrings_refl c.due), by simp, Or.inl rfl⟩
  | cons t ts ih =>
    intro c
    have hfold : (t :: ts).foldl minScanStep (some c)
        = ts.foldl minScanStep (minScanStep (some c) t) := rfl
    by_cases h : compareDateStrings t.due c.due < 0
    · have hstep : minScanStep (some c) t = some t := by simp [minScanStep, h]
      rcases ih t with ⟨m, hm, hmc, hml, hdec⟩
      refine ⟨m, by rw [hfold, hstep, hm], ?_, ?_, ?_⟩
      · exact le_of_lt (compareDateStrings_lt_of_le_of_lt hmc h)
      · intro t' ht'
        rcases List.mem_cons.mp ht' with rfl | ht'
        · exact hmc
        · exact hml t' ht'
      · rcases hdec with rfl | ⟨pre, post, hts, hlt, hpre⟩
        · exact Or.inr ⟨[], ts, by simp, h, by simp⟩
        · refine Or.inr ⟨t :: pre, post, by simp [hts], ?_, ?_⟩
          · exact compareDateStrings_lt_of_lt_of_le hlt (le_of_lt h)
          · intro x hx
            rcases List.mem_cons.mp hx with rfl | hx
            · exact hlt
            · exact hpre x hx
    · have hstep : minScanStep (some c) t = some c := by simp [minScanStep, h]
      have hct : compareDateStrings c.due t.due ≤ 0 :=
        compareDateStrings_le_of_not_lt h
      rcases ih c with ⟨m, hm, hmc, hml, hdec⟩
      refine ⟨m, by rw [hfold, hstep, hm], hmc, ?_, ?_⟩
      · intro t' ht'
        rcases List.mem_cons.mp ht' with rfl | ht'
        · exact compareDateStrings_le_trans hmc hct
        · exact hml t' ht'
      · rcases hdec with rfl | ⟨pre, post, hts, hlt, hpre⟩
        · exact Or.inl rfl
        · refine Or.inr ⟨t :: pre, post, by simp [hts], hlt, ?_⟩
          intro x hx
          rcases List.mem_cons.mp hx with rfl | hx
          · exact compareDateStrings_lt_of_lt_of_le hlt hct
          · exact hpre x hx

/-! ### Claim C3: next-meeting selection -/

theorem mem_setAdd {l : List String} {s x : String} :
    x ∈ setAdd l s ↔ x ∈ l ∨ x = s := by
  unfold setAdd
  split_ifs with h
  · exact ⟨Or.inl, fun hx => hx.elim id (fun he => he ▸ h)⟩
  · simp

theorem normalize_default_meeting :
    normalizePriorityKey DEFAULT_MEETING_PRIORITY = "meetings" := by
  decide

theorem mem_meetingKeysFor {mp x : String} :
    x ∈ meetingKeysFor mp ↔
      (normalizePriorityKey mp ≠ "" ∧ x = normalizePriorityKey mp) ∨
      x = "meetings" ∨ x = "meeting" := by
  have base : ∀ l : List String,
      x ∈ setAdd (setAdd (setAdd l
          (normalizePriorityKey DEFAULT_MEETING_PRIORITY)) "meeting") "meetings" ↔
        x ∈ l ∨ x = "meetings" ∨ x = "meeting" := by
    intro l
    rw [mem_setAdd, mem_setAdd, mem_setAdd, normalize_default_meeting]
    tauto
  have hshow : x ∈ meetingKeysFor mp ↔
      x ∈ setAdd (setAdd (setAdd
          (if normalizePriorityKey mp ≠ "" then setAdd [] (normalizePriorityKey mp)
            else [])
          (normalizePriorityKey DEFAULT_MEETING_PRIORITY)) "meeting") "meetings" :=
    Iff.rfl
  rw [hshow, base]
  by_cases h : normalizePriorityKey mp = ""
  · simp [h, setAdd]
  · rw [if_pos h, mem_setAdd]
    simp [h]

theorem taskIsMeeting_iff {keys : List String} {t : NotionTask} :
    taskIsMeeting keys t = true ↔
      normalizePriorityKey (t.priority.getD "") ∈ keys := by
  simp [taskIsMeeting]

/-- Claim-side meeting qualification exactly as claim C3 words it: the
normalized priority key is one of the normalized configured override, the
normalized default meeting label, `"meeting"`, or `"meetings"` — with no
guard on the override normalizing to the empty string. -/
def claimMeetingQualifies (mp : String) (t : NotionTask) : Bool :=
  normalizePriorityKey (t.priority.getD "") == normalizePriorityKey mp ||
  normalizePriorityKey (t.priority.getD "") ==
    normalizePriorityKey DEFAULT_MEETING_PRIORITY ||
  normalizePriorityKey (t.priority.getD "") == "meeting" ||
  normalizePriorityKey (t.priority.getD "") == "meetings"

/-- **C3, counterexample.**  With meeting override `"!!!"` (which
normalizes to `""`), the task `A` with priority `"???"` (also normalizing
to `""`) qualifies as a meeting under the claim's wording while task `B`
(priority `"1st priority"`, due `"2025-01-01"`) does not; both are
active, so the claim demands `nextMeeting = A`.  The code adds the
normalized override to the key set only when it is non-empty
(`task-helpers.ts:178`), finds no qualifying task, and falls back to the
sorted-active head `B`. -/
theorem buildTaskSummary_c3_counterexample :
    claimMeetingQualifies "!!!"
      ⟨"A", "a", some "???", none, none, none, none, none⟩ = true ∧
    claimMeetingQualifies "!!!"
      ⟨"B", "b", some "1st priority", none, none, none, none, some "2025-01-01"⟩ = false ∧
    isTaskCompleted ⟨"A", "a", some "???", none, none, none, none, none⟩ "Done" = false ∧
    isTaskCompleted ⟨"B", "b", some "1st priority", none, none, none, none,
      some "2025-01-01"⟩ "Done" = false ∧
    (buildTaskSummary
      [⟨"A", "a", some "???", none, none, none, none, none⟩,
       ⟨"B", "b", some "1st priority", none, none, none, none, some "2025-01-01"⟩]
      "Done" "!!!" [] 0).nextMeeting =
      some ⟨"B", "b", some "1st priority", none, none, none, none, some "2025-01-01"⟩ ∧
    (⟨"B", "b", some "1st priority", none, none, none, none, some "2025-01-01"⟩ :
      NotionTask) ≠ ⟨"A", "a", some "???", none, none, none, none, none⟩ := by
  refine ⟨by decide, by decide, by decide, by decide, ?_, by decide⟩
  have hst : List.foldl (processTask "Done" (meetingKeysFor "!!!"))
      ⟨0, [], [], [], none⟩
      [⟨"A", "a", some "???", none, none, none, none, none⟩,
       ⟨"B", "b", some "1st priority", none, none, none, none, some "2025-01-01"⟩] =
      ⟨0,
       [⟨"A", "a", some "???", none, none, none, none, none⟩,
        ⟨"B", "b", some "1st priority", none, none, none, none, some "2025-01-01"⟩],
       [("Unspecified", 2)], [("Unspecified", 2)], none⟩ := by
    decide
  have hsort : sortTasks
      [⟨"A", "a", some "???", none, none, none, none, none⟩,
       ⟨"B", "b", some "1st priority", none, none, none, none, some "2025-01-01"⟩] =
      [⟨"B", "b", some "1st priority", none, none, none, none, some "2025-01-01"⟩,
       ⟨"A", "a", some "???", none, none, none, none, none⟩] := by
    simp [sortTasks, List.mergeSort, List.splitInTwo, List.merge, taskLE]
    norm_num [cmpTasks_unfold, compareDateStrings, strFalsy]
    decide
  simp only [buildTaskSummary]
  rw [hst]
  show (sortTasks
      [⟨"A", "a", some "???", none, none, none, none, none⟩,
       ⟨"B", "b", some "1st priority", none, none, none, none, some "2025-01-01"⟩]).head?
    = some ⟨"B", "b", some "1st priority", none, none, none, none, some "2025-01-01"⟩
  rw [hsort]
  rfl

/-- **C3, amended.**  In `buildTaskSummary`, a task qualifies as a
meeting iff its normalized priority key is the normalized configured
meeting-priority override *when that normalizes to a non-empty string*,
or is `"meetings"` (which is also the normalized default meeting label)
or `"meeting"`; among qualifying non-completed tasks the one with the
earliest due date — absent *or empty-string* due counting as latest — is
selected as `nextMeeting`, with ties keeping the first qualifying task in
input iteration order (everything before the winner is strictly later);
and if no task qualifies, `nextMeeting` is the head of the sorted active
list, hence never `none` when an active task exists. -/
theorem buildTaskSummary_c3_amended (tasks : List NotionTask) (d mp : String)
    (mo : List MetricKey) (now : Nat) :
    (∀ t : NotionTask, taskIsMeeting (meetingKeysFor mp) t = true ↔
      ((normalizePriorityKey mp ≠ "" ∧
          normalizePriorityKey (t.priority.getD "") = normalizePriorityKey mp) ∨
        normalizePriorityKey (t.priority.getD "") = "meetings" ∨
        normalizePriorityKey (t.priority.getD "") = "meeting")) ∧
    (∀ q qs, tasks.filter (fun t => !(isTaskCompleted t d) &&
        taskIsMeeting (meetingKeysFor mp) t) = q :: qs →
      ∃ m pre post, (buildTaskSummary tasks d mp mo now).nextMeeting = some m ∧
        q :: qs = pre ++ m :: post ∧
        (∀ t ∈ q :: qs, compareDateStrings m.due t.due ≤ 0) ∧
        (∀ t ∈ pre, compareDateStrings m.due t.due < 0)) ∧
    (tasks.filter (fun t => !(isTaskCompleted t d) &&
        taskIsMeeting (meetingKeysFor mp) t) = [] →
      (buildTaskSummary tasks d mp mo now).nextMeeting =
        (sortTasks (tasks.filter (fun t => !(isTaskCompleted t d)))).head?) ∧
    (tasks.filter (fun t => !(isTaskCompleted t d)) ≠ [] →
      (buildTaskSummary tasks d mp mo now).nextMeeting ≠ none) := by
  rcases foldl_processTask d (meetingKeysFor mp) tasks ⟨0, [], [], [], none⟩ with
    ⟨-, h2, -, -, h5⟩
  simp only [List.nil_append] at h2
  have hb : (buildTaskSummary tasks d mp mo now).nextMeeting =
      (match (tasks.foldl (processTask d (meetingKeysFor mp))
          ⟨0, [], [], [], none⟩).nextMeeting with
        | some nm => some nm
        | none =>
          if (tasks.foldl (processTask d (meetingKeysFor mp))
              ⟨0, [], [], [], none⟩).activeTasks.length > 0 then
            (sortTasks (tasks.foldl (processTask d (meetingKeysFor mp))
              ⟨0, [], [], [], none⟩).activeTasks).head?
          else none) := rfl
  have main1 : ∀ t : NotionTask, taskIsMeeting (meetingKeysFor mp) t = true ↔
      ((normalizePriorityKey mp ≠ "" ∧
          normalizePriorityKey (t.priority.getD "") = normalizePriorityKey mp) ∨
        normalizePriorityKey (t.priority.getD "") = "meetings" ∨
        normalizePriorityKey (t.priority.getD "") = "meeting") := by
    intro t
    rw [taskIsMeeting_iff, mem_meetingKeysFor]
  have main2 : ∀ q qs, tasks.filter (fun t => !(isTaskCompleted t d) &&
      taskIsMeeting (meetingKeysFor mp) t) = q :: qs →
      ∃ m pre post, (buildTaskSummary tasks d mp mo now).nextMeeting = some m ∧
        q :: qs = pre ++ m :: post ∧
        (∀ t ∈ q :: qs, compareDateStrings m.due t.due ≤ 0) ∧
        (∀ t ∈ pre, compareDateStrings m.due t.due < 0) := by
    intro q qs hq
    rw [hq] at h5
    have hq5 : (tasks.foldl (processTask d (meetingKeysFor mp))
        ⟨0, [], [], [], none⟩).nextMeeting = qs.foldl minScanStep (some q) := h5
    rcases minScan_some qs q with ⟨m, hm, hmc, hml, hdec⟩
    refine ⟨m, ?_⟩
    have hnm : (buildTaskSummary tasks d mp mo now).nextMeeting = some m := by
      rw [hb, hq5, hm]
    rcases hdec with rfl | ⟨pre', post', hts, hlt, hpre'⟩
    · refine ⟨[], qs, hnm, by simp, ?_, by simp⟩
      intro t ht
      rcases List.mem_cons.mp ht with rfl | ht
      · exact le_of_eq (compareDateStrings_refl t.due)
      · exact hml t ht
    · refine ⟨q :: pre', post', hnm, by simp [hts], ?_, ?_⟩
      · intro t ht
        rcases List.mem_cons.mp ht with rfl | ht
        · exact hmc
        · exact hml t ht
      · intro t ht
        rcases List.mem_cons.mp ht with rfl | ht
        · exact hlt
        · exact hpre' t ht
  have main3 : tasks.filter (fun t => !(isTaskCompleted t d) &&
      taskIsMeeting (meetingKeysFor mp) t) = [] →
      (buildTaskSummary tasks d mp mo now).nextMeeting =
        (sortTasks (tasks.filter (fun t => !(isTaskCompleted t d)))).head? := by
    intro hq
    rw [hq] at h5
    rw [hb, h5, h2]
    by_cases hact : tasks.filter (fun t => !(isTaskCompleted t d)) = []
    · simp [hact, sortTasks]
    · rw [if_pos (by
        simpa [List.length_pos] using hact)]
      rfl
  have main4 : tasks.filter (fun t => !(isTaskCompleted t d)) ≠ [] →
      (buildTaskSummary tasks d mp mo now).nextMeeting ≠ none := by
    intro hact
    cases hq : tasks.filter (fun t => !(isTaskCompleted t d) &&
        taskIsMeeting (meetingKeysFor mp) t) with
    | nil =>
      rw [main3 hq]
      intro hnone
      rw [List.head?_eq_none_iff] at hnone
      have : (sortTasks (tasks.filter (fun t => !(isTaskCompleted t d)))).length = 0 := by
        rw [hnone]
        rfl
      rw [sortTasks, List.length_mergeSort] at this
      exact hact (List.length_eq_zero.mp this)
    | cons q qs =>
      rcases main2 q qs hq with ⟨m, -, -, hnm, -⟩
      rw [hnm]
      simp
  exact ⟨main1, main2, main3, main4⟩

/-- **C3, witness.**  A concrete instance discharging the hypotheses of
`buildTaskSummary_c3_amended`: one active `"Meetings"`-priority task is
selected as `nextMeeting`. -/
theorem buildTaskSummary_c3_amended_witness :
    ∃ m pre post,
      (buildTaskSummary [⟨"M", "m", some "Meetings", none, none, none, none, none⟩]
        "Done" "" [] 0).nextMeeting = some m ∧
      [⟨"M", "m", some "Meetings", none, none, none, none, none⟩] = pre ++ m :: post ∧
      (∀ t ∈ [(⟨"M", "m", some "Meetings", none, none, none, none, none⟩ : NotionTask)],
        compareDateStrings m.due t.due ≤ 0) ∧
      (∀ t ∈ pre, compareDateStrings m.due t.due < 0) :=
  (buildTaskSummary_c3_amended
      [⟨"M", "m", some "Meetings", none, none, none, none, none⟩]
      "Done" "" [] 0).2.1
    ⟨"M", "m", some "Meetings", none, none, none, none, none⟩ [] (by decide)

/-! ### Claim C4: `prioritySortIndex` -/

theorem prioritySortIndex_unfold (s : String) :
    prioritySortIndex (some s) =
      if s = "" then PRIORITY_SEQUENCE.length + 1
      else if normalizePriorityKey s = "" then PRIORITY_SEQUENCE.length + 1
      else
        match lookupStr PRIORITY_ORDER
            ((lookupStr PRIORITY_ALIASES (normalizePriorityKey s)).getD
              (normalizePriorityKey s)) with
        | some index => index
        | none => PRIORITY_SEQUENCE.length + 1 := rfl

theorem lookupStr_mem {table : List (String × α)} {key : String} {v : α}
    (h : lookupStr table key = some v) : (key, v) ∈ table := by
  induction table with
  | nil => simp [lookupStr] at h
  | cons p rest ih =>
    unfold lookupStr at h ih
    rw [List.find?_cons] at h
    cases hb : (p.1 == key) with
    | true =>
      rw [hb] at h
      simp only [Option.map_some', Option.some.injEq] at h
      have h1 : p.1 = key := by simpa using hb
      have hp : p = (key, v) := by
        rcases p with ⟨p1, p2⟩
        simp_all
      rw [← hp]
      exact List.mem_cons_self p rest
    | false =>
      rw [hb] at h
      exact List.mem_cons_of_mem _ (ih h)

theorem PRIORITY_ORDER_fsts : PRIORITY_ORDER.map Prod.fst = PRIORITY_SEQUENCE := by
  decide

theorem lookup_PRIORITY_ORDER_some {key : String} (h : key ∈ PRIORITY_SEQUENCE) :
    lookupStr PRIORITY_ORDER key = some (PRIORITY_SEQUENCE.indexOf key) := by
  fin_cases h <;> decide

theorem lookup_PRIORITY_ORDER_none {key : String} (h : key ∉ PRIORITY_SEQUENCE) :
    lookupStr PRIORITY_ORDER key = none := by
  cases hf : lookupStr PRIORITY_ORDER key with
  | none => rfl
  | some v =>
    exfalso
    apply h
    have hk := List.mem_map_of_mem Prod.fst (lookupStr_mem hf)
    rwa [PRIORITY_ORDER_fsts] at hk

theorem PRIORITY_ORDER_snd_lt {key : String} {v : Nat}
    (h : lookupStr PRIORITY_ORDER key = some v) : v < PRIORITY_SEQUENCE.length := by
  have hv := List.mem_map_of_mem Prod.snd (lookupStr_mem h)
  have : PRIORITY_ORDER.map Prod.snd = [0, 1, 2, 3, 4, 5, 6, 7, 8] := by decide
  rw [this] at hv
  have hlen : PRIORITY_SEQUENCE.length = 9 := by decide
  rw [hlen]
  simp at hv
  omega

/-- **C4.**  `prioritySortIndex` is a pure total function that: returns
the unranked value `PRIORITY_SEQUENCE.length + 1` for an absent input or
an input that normalizes to the empty string; otherwise normalizes the
label and applies the alias table, returning the 0-based position in the
nine-entry `PRIORITY_SEQUENCE` when the canonical form is found and the
single shared unranked value — strictly greater than every known rank —
otherwise; each spelled-out ordinal variant receives exactly the rank of
its hyphenated canonical form. -/
theorem prioritySortIndex_c4 :
    prioritySortIndex none = PRIORITY_SEQUENCE.length + 1 ∧
    (∀ s, normalizePriorityKey s = "" →
      prioritySortIndex (some s) = PRIORITY_SEQUENCE.length + 1) ∧
    (∀ s, ((lookupStr PRIORITY_ALIASES (normalizePriorityKey s)).getD
        (normalizePriorityKey s)) ∈ PRIORITY_SEQUENCE →
      prioritySortIndex (some s) =
        PRIORITY_SEQUENCE.indexOf
          ((lookupStr PRIORITY_ALIASES (normalizePriorityKey s)).getD
            (normalizePriorityKey s))) ∧
    (∀ s, ((lookupStr PRIORITY_ALIASES (normalizePriorityKey s)).getD
        (normalizePriorityKey s)) ∉ PRIORITY_SEQUENCE →
      prioritySortIndex (some s) = PRIORITY_SEQUENCE.length + 1) ∧
    (∀ p : Option String, prioritySortIndex p = PRIORITY_SEQUENCE.length + 1 ∨
      prioritySortIndex p < PRIORITY_SEQUENCE.length) ∧
    prioritySortIndex (some "first priority") = prioritySortIndex (some "1st-priority") ∧
    prioritySortIndex (some "second priority") = prioritySortIndex (some "2nd-priority") ∧
    prioritySortIndex (some "third priority") = prioritySortIndex (some "3rd-priority") ∧
    prioritySortIndex (some "fourth priority") = prioritySortIndex (some "4th-priority") ∧
    prioritySortIndex (some "fifth priority") = prioritySortIndex (some "5th-priority") := by
  have hkey_empty : ∀ s : String, normalizePriorityKey s = "" →
      ((lookupStr PRIORITY_ALIASES (normalizePriorityKey s)).getD
        (normalizePriorityKey s)) = "" := by
    intro s h
    rw [h]
    decide
  refine ⟨rfl, ?_, ?_, ?_, ?_, by decide, by decide, by decide, by decide, by decide⟩
  · intro s h
    rw [prioritySortIndex_unfold]
    by_cases hs : s = ""
    · rw [if_pos hs]
    · rw [if_neg hs, if_pos h]
  · intro s hmem
    have hn : normalizePriorityKey s ≠ "" := by
      intro h
      rw [hkey_empty s h] at hmem
      exact absurd hmem (by decide)
    have hs : s ≠ "" := by
      intro h
      exact hn (by rw [h]; decide)
    rw [prioritySortIndex_unfold, if_neg hs, if_neg hn,
      lookup_PRIORITY_ORDER_some hmem]
  · intro s hmem
    rw [prioritySortIndex_unfold]
    by_cases hs : s = ""
    · rw [if_pos hs]
    · by_cases hn : normalizePriorityKey s = ""
      · rw [if_neg hs, if_pos hn]
      · rw [if_neg hs, if_neg hn, lookup_PRIORITY_ORDER_none hmem]
  · intro p
    cases p with
    | none => exact Or.inl rfl
    | some s =>
      rw [prioritySortIndex_unfold]
      by_cases hs : s = ""
      · rw [if_pos hs]
        exact Or.inl rfl
      · by_cases hn : normalizePriorityKey s = ""
        · rw [if_neg hs, if_pos hn]
          exact Or.inl rfl
        · rw [if_neg hs, if_neg hn]
          cases hf : lookupStr PRIORITY_ORDER
              ((lookupStr PRIORITY_ALIASES (normalizePriorityKey s)).getD
                (normalizePriorityKey s)) with
          | none => exact Or.inl rfl
          | some v => exact Or.inr (PRIORITY_ORDER_snd_lt hf)

/-- **C4, witness.**  Concrete instances discharging the hypotheses of
`prioritySortIndex_c4`: a label normalizing to the empty string is
unranked, and a known label gets its 0-based sequence position. -/
theorem prioritySortIndex_c4_witness :
    prioritySortIndex (some "!!!") = PRIORITY_SEQUENCE.length + 1 ∧
    prioritySortIndex (some "Meetings") =
      PRIORITY_SEQUENCE.indexOf
        ((lookupStr PRIORITY_ALIASES (normalizePriorityKey "Meetings")).getD
          (normalizePriorityKey "Meetings")) :=
  ⟨prioritySortIndex_c4.2.1 "!!!" (by decide),
   prioritySortIndex_c4.2.2.1 "Meetings" (by decide)⟩

/-! ### Claim C6: `sanitizeMetricsOrder` -/

/-- Claim-side matching of one candidate entry: a string entry matched
case-insensitively (after trimming) against the known metric identifiers,
everything else dropped. -/
def metricsMatchOf : JsValue → Option MetricKey
  | .str s =>
    METRIC_VALUES.find? (fun v => jsToLower (metricKeyName v) == jsToLower (jsTrim s))
  | .other => none

/-- Claim-side deduplication keeping the first occurrence's position,
relative to a set of already-seen keys. -/
def dedupKeepFirst : List MetricKey → List MetricKey → List MetricKey
  | [], _ => []
  | m :: ms, seen =>
    if m ∈ seen then dedupKeepFirst ms seen
    else m :: dedupKeepFirst ms (seen ++ [m])

/-- Claim-side formulation of `sanitizeMetricsOrder`: match each entry,
drop unknown and non-string entries, deduplicate keeping first
occurrences, and substitute the full default on an empty result. -/
def sanitizeMetricsOrderSpec (input : MetricsInput) : List MetricKey :=
  let deduped := dedupKeepFirst ((metricsCandidates input).filterMap metricsMatchOf) []
  if deduped = [] then DEFAULT_METRICS_ORDER else deduped

theorem dedupKeepFirst_cons (m : MetricKey) (ms seen : List MetricKey) :
    dedupKeepFirst (m :: ms) seen =
      if m ∈ seen then dedupKeepFirst ms seen
      else m :: dedupKeepFirst ms (seen ++ [m]) := rfl

theorem metricsLoop_eq_dedup :
    ∀ (cs : List JsValue) (seen : List MetricKey),
      metricsLoop cs seen = seen ++ dedupKeepFirst (cs.filterMap metricsMatchOf) seen := by
  intro cs
  induction cs with
  | nil => intro seen; simp [metricsLoop, dedupKeepFirst]
  | cons c rest ih =>
    intro seen
    cases c with
    | other =>
      show metricsLoop rest seen = _
      rw [ih]
      rfl
    | str s =>
      cases hf : METRIC_VALUES.find?
          (fun v => jsToLower (metricKeyName v) == jsToLower (jsTrim s)) with
      | none =>
        have hl : metricsLoop (JsValue.str s :: rest) seen = metricsLoop rest seen := by
          show (match METRIC_VALUES.find?
              (fun v => jsToLower (metricKeyName v) == jsToLower (jsTrim s)) with
            | some metric =>
              if metric ∈ seen then metricsLoop rest seen
              else metricsLoop rest (seen ++ [metric])
            | none => metricsLoop rest seen) = _
          rw [hf]
        have hr : (JsValue.str s :: rest).filterMap metricsMatchOf
            = rest.filterMap metricsMatchOf := by
          rw [List.filterMap_cons]
          simp only [metricsMatchOf]
          rw [hf]
        rw [hl, hr, ih]
      | some metric =>
        have hl : metricsLoop (JsValue.str s :: rest) seen =
            (if metric ∈ seen then metricsLoop rest seen
              else metricsLoop rest (seen ++ [metric])) := by
          show (match METRIC_VALUES.find?
              (fun v => jsToLower (metricKeyName v) == jsToLower (jsTrim s)) with
            | some metric =>
              if metric ∈ seen then metricsLoop rest seen
              else metricsLoop rest (seen ++ [metric])
            | none => metricsLoop rest seen) = _
          rw [hf]
        have hr : (JsValue.str s :: rest).filterMap metricsMatchOf
            = metric :: rest.filterMap metricsMatchOf := by
          rw [List.filterMap_cons]
          simp only [metricsMatchOf]
          rw [hf]
        rw [hl, hr, dedupKeepFirst_cons]
        by_cases hm : metric ∈ seen
        · rw [if_pos hm, if_pos hm, ih]
        · rw [if_neg hm, if_neg hm, ih]
          simp

/-- **C6.**  `sanitizeMetricsOrder` equals the claim's description
(case-insensitive matching against the known identifiers, dropping
unknown and non-string entries, deduplication keeping first occurrences,
full-default substitution when empty); the worked example holds; and the
result is never empty. -/
theorem sanitizeMetricsOrder_c6 :
    (∀ input, sanitizeMetricsOrder input = sanitizeMetricsOrderSpec input) ∧
    sanitizeMetricsOrder (.strInput "total,bogus,active,total") =
      [.total, .active] ∧
    (∀ input, (sanitizeMetricsOrder input).isEmpty = false) := by
  have heq : ∀ input, sanitizeMetricsOrder input = sanitizeMetricsOrderSpec input := by
    intro input
    unfold sanitizeMetricsOrder sanitizeMetricsOrderSpec
    rw [metricsLoop_eq_dedup]
    simp only [List.nil_append]
    cases hd : dedupKeepFirst ((metricsCandidates input).filterMap metricsMatchOf) [] with
    | nil => simp
    | cons a l => simp
  refine ⟨heq, by decide, ?_⟩
  intro input
  unfold sanitizeMetricsOrder
  rw [metricsLoop_eq_dedup]
  simp only [List.nil_append]
  cases hd : dedupKeepFirst ((metricsCandidates input).filterMap metricsMatchOf) [] with
  | nil => simp [DEFAULT_METRICS_ORDER, METRIC_VALUES]
  | cons a l => simp

/-! ### Claim C7: property extraction -/

/-- Claim-side rich-text extraction exactly as C7 words it: the
*concatenation* of all fragments' plain text (no separator), internal
whitespace runs collapsed to single spaces, trimmed; absent when blank. -/
def claimRichTextExtract (frags : List RichFrag) : Option String :=
  let raw := String.join (frags.map (·.plain_text))
  let normalized := jsTrim (collapseWhitespace raw)
  if normalized.length > 0 then some normalized else none

/-- **C7, counterexample.**  For two fragments `"a"` and `"b"`, the code
joins with a single-space separator (`join(" ")`,
`task-helpers.ts:120`) and returns `"a b"`, while the claim's
"concatenation of all fragments' plain text" yields `"ab"`. -/
theorem extractPropertyText_c7_counterexample :
    extractPropertyText
      (some { type := "rich_text", rich_text := some [⟨"a"⟩, ⟨"b"⟩] }) = some "a b" ∧
    claimRichTextExtract [⟨"a"⟩, ⟨"b"⟩] = some "ab" ∧
    (("a b" : String) ≠ "ab") := by
  refine ⟨by decide, by decide, by decide⟩

theorem string_pos_iff {s : String} : 0 < s.length ↔ s ≠ "" := by
  constructor
  · intro h heq
    rw [heq] at h
    exact absurd h (by decide)
  · intro h
    rcases s with ⟨data⟩
    cases data with
    | nil => exact absurd (by decide) h
    | cons c cs =>
      show 0 < (c :: cs).length
      simp

theorem lengthGuard_eq (s : String) :
    (if s.length > 0 then some s else none) =
      (if s = "" then none else some s) := by
  by_cases h : s = ""
  · rw [if_pos h, if_neg (by rw [h]; decide)]
  · rw [if_neg h, if_pos (string_pos_iff.mpr h)]

/-- Claim-side (amended) formulation of `extractPropertyText`: per type
tag, the named option's label trimmed with blank as absent
(status/select), the first option only (multi-select), the fragments
*joined with single spaces*, whitespace-collapsed and trimmed
(rich-text), and absent for every other or missing container. -/
def extractPropertyTextSpec (prop : Option NotionPropertyValue) : Option String :=
  match prop with
  | none => none
  | some p =>
    if p.type = "status" then
      match p.status.bind (·.name) with
      | none => none
      | some name => if jsTrim name = "" then none else some (jsTrim name)
    else if p.type = "select" then
      match p.select.bind (·.name) with
      | none => none
      | some name => if jsTrim name = "" then none else some (jsTrim name)
    else if p.type = "multi_select" then
      match p.multi_select with
      | none => none
      | some [] => none
      | some (first :: _) =>
        match first.name with
        | none => none
        | some name => if jsTrim name = "" then none else some (jsTrim name)
    else if p.type = "rich_text" then
      match p.rich_text with
      | none => none
      | some frags =>
        let joined := joinSep " " (frags.map (·.plain_text))
        let collapsed := jsTrim (collapseWhitespace joined)
        if collapsed = "" then none else some collapsed
    else none

/-- Claim-side formulation of `extractDateValue`: the date range's start
value only, trimmed, absent when blank; absent for any non-date or
missing container. -/
def extractDateValueSpec (prop : Option NotionPropertyValue) : Option String :=
  match prop with
  | none => none
  | some p =>
    if p.type = "date" then
      match p.date.bind (·.start) with
      | none => none
      | some v => if jsTrim v = "" then none else some (jsTrim v)
    else none

/-- **C7, amended.**  `extractPropertyText` and `extractDateValue` are
total functions (nothing to throw in a pure model) agreeing everywhere
with the claim's description, amended in one place: the rich-text
fragments are joined with single-space separators rather than
concatenated directly. -/
theorem extract_c7_amended (prop : Option NotionPropertyValue) :
    extractPropertyText prop = extractPropertyTextSpec prop ∧
    extractDateValue prop = extractDateValueSpec prop := by
  constructor
  · cases prop with
    | none => rfl
    | some p =>
      simp only [extractPropertyText, extractPropertyTextSpec]
      by_cases h1 : p.type = "status"
      · rw [if_pos h1, if_pos h1]
        cases p.status.bind (·.name) with
        | none => rfl
        | some name =>
          show orUndef (some (jsTrim name)) = _
          unfold orUndef
          rfl
      · rw [if_neg h1, if_neg h1]
        by_cases h2 : p.type = "select"
        · rw [if_pos h2, if_pos h2]
          cases p.select.bind (·.name) with
          | none => rfl
          | some name =>
            show orUndef (some (jsTrim name)) = _
            unfold orUndef
            rfl
        · rw [if_neg h2, if_neg h2]
          by_cases h3 : p.type = "multi_select"
          · rw [if_pos h3, if_pos h3]
            cases hms : p.multi_select with
            | none => rfl
            | some opts =>
              cases opts with
              | nil => rfl
              | cons first rest =>
                show orUndef ((first.name).map jsTrim) =
                  (match first.name with
                   | none => none
                   | some name =>
                     if jsTrim name = "" then none else some (jsTrim name))
                cases first.name with
                | none => rfl
                | some name =>
                  show orUndef (some (jsTrim name)) = _
                  unfold orUndef
                  rfl
          · rw [if_neg h3, if_neg h3]
            by_cases h4 : p.type = "rich_text"
            · rw [if_pos h4, if_pos h4]
              cases hrt : p.rich_text with
              | none =>
                show (if (jsTrim (collapseWhitespace "")).length > 0 then _ else _) = _
                decide
              | some frags =>
                show (if (jsTrim (collapseWhitespace
                    (joinSep " " (frags.map (·.plain_text))))).length > 0
                  then some (jsTrim (collapseWhitespace
                    (joinSep " " (frags.map (·.plain_text)))))
                  else none) =
                  (if jsTrim (collapseWhitespace
                      (joinSep " " (frags.map (·.plain_text)))) = "" then none
                    else some (jsTrim (collapseWhitespace
                      (joinSep " " (frags.map (·.plain_text))))))
                exact lengthGuard_eq _
            · rw [if_neg h4, if_neg h4]
  · cases prop with
    | none => rfl
    | some p =>
      simp only [extractDateValue, extractDateValueSpec]
      by_cases h : p.type = "date"
      · rw [if_neg (not_not_intro h), if_pos h]
        cases p.date.bind (·.start) with
        | none => rfl
        | some v =>
          show (if v = "" then none
              else if (jsTrim v).length > 0 then some (jsTrim v) else none) =
            (if jsTrim v = "" then none else some (jsTrim v))
          by_cases hv : v = ""
          · rw [if_pos hv, if_pos (show jsTrim v = "" by rw [hv]; decide)]
          · rw [if_neg hv, lengthGuard_eq]
      · rw [if_pos h, if_neg h]

/-! ### Claim C8: extracted task titles -/

/-- Chained access `titleProperty?.title` in `extractTask`: the fragment
array of the first title-typed property, when both exist. -/
def titleFragments (page : Page) : Option (List RichFrag) :=
  ((page.properties.map (·.2)).find? (fun p => p.type == "title")).bind (·.title)

/-- **C8, counterexample.**  A page whose title property carries an
*empty* fragment array produces a task with an empty title: the
`?? "(untitled)"` fallback (`notion-today.ts:801`) fires only when the
chained access is nullish, and `[].join("")` is `""`, not nullish. -/
theorem extractTask_c8_counterexample :
    (extractTask
      ⟨"p1", none, [("Name", { type := "title", title := some [] })]⟩
      {}).title = "" := by
  decide

/-- **C8, amended.**  The task constructed by `extractTask` falls back to
the sentinel title `"(untitled)"` exactly when the page has no
title-typed property or that property lacks a fragment array (so the
title is non-empty in that case); when a fragment array is present the
title is the concatenation of its fragments' plain text, which is empty
when the fragments join to the empty string. -/
theorem extractTask_c8_amended (page : Page) (s : ExtractSettings) :
    (titleFragments page = none → (extractTask page s).title = "(untitled)") ∧
    (∀ frags, titleFragments page = some frags →
      (extractTask page s).title = String.join (frags.map (·.plain_text))) ∧
    (titleFragments page = none → (extractTask page s).title ≠ "") := by
  have hb : (extractTask page s).title =
      (match titleFragments page with
        | some frags => String.join (frags.map (·.plain_text))
        | none => "(untitled)") := rfl
  refine ⟨?_, ?_, ?_⟩
  · intro h
    rw [hb, h]
  · intro frags h
    rw [hb, h]
  · intro h
    rw [hb, h]
    decide

/-- **C8, witness.**  A page with no properties gets the sentinel
title. -/
theorem extractTask_c8_amended_witness :
    (extractTask ⟨"p1", none, []⟩ {}).title = "(untitled)" :=
  (extractTask_c8_amended ⟨"p1", none, []⟩ {}).1 (by decide)

/-! ### Claim C9: the fetch layer never throws -/

theorem queryNotion_error_tasks (s : QuerySettings) :
    ∀ outcomes, (queryNotion s outcomes).error ≠ none →
      (queryNotion s outcomes).tasks = [] := by
  intro outcomes
  induction outcomes with
  | nil => cases hv : queryValidationError s <;> simp [queryNotion, hv]
  | cons o rest ih =>
    cases hv : queryValidationError s with
    | some e => simp [queryNotion, hv]
    | none =>
      cases o with
      | throwEx m => simp [queryNotion, hv]
      | resp status ra text json =>
        by_cases h429 : status = 429
        · have : queryNotion s (.resp status ra text json :: rest)
              = queryNotion s rest := by
            simp [queryNotion, hv, h429]
          rw [this]
          exact ih
        · by_cases hok : httpOk status
          · cases json with
            | error msg => simp [queryNotion, hv, h429, hok]
            | ok pages => simp [queryNotion, hv, h429, hok]
          · simp [queryNotion, hv, h429, hok]

/-- **C9.**  For every configuration and every behaviour of the HTTP
layer (thrown exceptions, network failures, non-2xx responses, missing or
wrongly-typed configured properties), `queryNotion` — a total function in
this model, so nothing escapes to the caller — surfaces every failure as
`{ tasks := [], error := some msg }`: an error implies an empty task
list, a thrown fetch exception becomes its message, a validation failure
becomes its message; and the result of `fetchTodayTasks` satisfies the
same error-implies-empty-tasks invariant. -/
theorem fetch_c9 (s : QuerySettings) (outcomes : List FetchOutcome)
    (st : CoordState) (ck : String) (force : Bool) (now : Nat) :
    ((queryNotion s outcomes).error ≠ none → (queryNotion s outcomes).tasks = []) ∧
    (∀ msg rest, queryValidationError s = none →
      queryNotion s (.throwEx msg :: rest) = ⟨[], some msg⟩) ∧
    (∀ e, queryValidationError s = some e →
      queryNotion s outcomes = ⟨[], some e⟩) ∧
    ((fetchTodayTasks st s ck force now outcomes).1.error ≠ none →
      (fetchTodayTasks st s ck force now outcomes).1.tasks = []) := by
  refine ⟨queryNotion_error_tasks s outcomes, ?_, ?_, ?_⟩
  · intro msg rest hv
    simp [queryNotion, hv]
  · intro e hv
    cases outcomes with
    | nil => simp [queryNotion, hv]
    | cons o rest => cases o <;> simp [queryNotion, hv]
  · simp only [fetchTodayTasks]
    split
    · intro h
      exact absurd rfl h
    · split
      · rename_i hnone
        intro h
        exact absurd hnone h
      · intro h
        exact queryNotion_error_tasks s outcomes h


/-- **C9, witness.**  With an unconfigured date property and no HTTP
behaviour at all, the fetch surfaces an error with an empty task list. -/
theorem fetch_c9_witness :
    (queryNotion ({ } : QuerySettings) []).tasks = [] ∧
    queryNotion ({ } : QuerySettings) [.throwEx "boom"] =
      ⟨[], some "Please select a date property in the settings"⟩ :=
  ⟨(fetch_c9 ({ } : QuerySettings) [] ({ } : CoordState) "k" false 0).1 (by decide),
   (fetch_c9 ({ } : QuerySettings) [.throwEx "boom"] ({ } : CoordState) "k" false 0).2.2.1
     "Please select a date property in the settings" (by decide)⟩

end NotionTasks
